import Mathlib

/-!
Shallow embedding of `src/puppet.js` (the `Puppet` class of the
matrix-skype-bridge repository) and proofs about it.

The JavaScript runtime facts the code relies on are modelled explicitly:
a plain JS object is an insertion-ordered map with unique string keys
(`JsObj`), promise settlement is idempotent (`PromiseState.resolve`),
and a rejected underlying call is a `JsResult.err` carrying the error
message.
-/

set_option autoImplicit false

namespace MatrixSkypeBridge

universe u

/-- A plain JavaScript object used as a map: an insertion-ordered list of
entries whose keys are pairwise distinct (JS objects cannot hold the same
key twice). `Object.keys` is `keys`, property read is `get`, property
assignment is `set`. -/
structure JsObj (α : Type u) where
  entries : List (String × α)
  nodupKeys : (entries.map Prod.fst).Nodup

namespace JsObj

variable {α : Type u}

/-- The empty object `{}`. -/
def empty : JsObj α := ⟨[], List.nodup_nil⟩

/-- `Object.keys(o)`: the keys in insertion order. -/
def keys (o : JsObj α) : List String := o.entries.map Prod.fst

/-- Property read `o[k]`: `none` models JS `undefined`. -/
def get (o : JsObj α) (k : String) : Option α :=
  (o.entries.find? fun p => p.1 = k).map Prod.snd

/-- Assignment on the entry list: replace the value in place when the key
exists (JS keeps the original key position), append otherwise. -/
def setEntries (l : List (String × α)) (k : String) (v : α) : List (String × α) :=
  match l with
  | [] => [(k, v)]
  | p :: rest => if p.1 = k then (k, v) :: rest else p :: setEntries rest k v

theorem map_fst_setEntries (l : List (String × α)) (k : String) (v : α) :
    (setEntries l k v).map Prod.fst =
      if k ∈ l.map Prod.fst then l.map Prod.fst else l.map Prod.fst ++ [k] := by
  induction l with
  | nil => simp [setEntries]
  | cons p rest ih =>
    by_cases hp : p.1 = k
    · simp [setEntries, hp]
    · have hk : ¬ k = p.1 := fun h => hp h.symm
      by_cases hm : k ∈ rest.map Prod.fst
      · simp [setEntries, hp, hm, hk, ih]
      · simp [setEntries, hp, hm, hk, ih]

theorem nodup_setEntries {l : List (String × α)} (h : (l.map Prod.fst).Nodup)
    (k : String) (v : α) : ((setEntries l k v).map Prod.fst).Nodup := by
  rw [map_fst_setEntries]
  by_cases hm : k ∈ l.map Prod.fst
  · simpa [hm] using h
  · simp only [hm, if_false]
    exact List.Nodup.append h (List.nodup_singleton k)
      (by simpa [List.disjoint_singleton] using hm)

/-- Property assignment `o[k] = v`. -/
def set (o : JsObj α) (k : String) (v : α) : JsObj α :=
  ⟨setEntries o.entries k v, nodup_setEntries o.nodupKeys k v⟩

@[simp] theorem keys_empty : (empty : JsObj α).keys = [] := rfl

@[simp] theorem get_empty (k : String) : (empty : JsObj α).get k = none := rfl

theorem keys_set (o : JsObj α) (k : String) (v : α) :
    (o.set k v).keys = if k ∈ o.keys then o.keys else o.keys ++ [k] :=
  map_fst_setEntries o.entries k v

theorem find?_setEntries_self (l : List (String × α)) (k : String) (v : α) :
    ((setEntries l k v).find? fun p => p.1 = k) = some (k, v) := by
  induction l with
  | nil => simp [setEntries, List.find?]
  | cons p rest ih =>
    by_cases hp : p.1 = k
    · simp [setEntries, hp, List.find?]
    · simp [setEntries, hp, List.find?, ih]

theorem find?_setEntries_ne (l : List (String × α)) (k k' : String) (v : α)
    (h : k' ≠ k) :
    ((setEntries l k v).find? fun p => p.1 = k') = (l.find? fun p => p.1 = k') := by
  have hkk : ¬ k = k' := fun hc => h hc.symm
  induction l with
  | nil => simp [setEntries, List.find?, hkk]
  | cons p rest ih =>
    by_cases hp : p.1 = k
    · have hpk : ¬ p.1 = k' := fun hc => h (hc.symm.trans hp)
      simp [setEntries, hp, List.find?, hpk, hkk]
    · by_cases hp' : p.1 = k'
      · simp [setEntries, hp, List.find?, hp', h, hkk]
      · simp [setEntries, hp, List.find?, hp', ih, h, hkk]

@[simp] theorem get_set_self (o : JsObj α) (k : String) (v : α) :
    (o.set k v).get k = some v := by
  simp [get, set, find?_setEntries_self]

theorem get_set_ne (o : JsObj α) (k k' : String) (v : α) (h : k' ≠ k) :
    (o.set k v).get k' = o.get k' := by
  simp [get, set, find?_setEntries_ne _ _ _ _ h]

theorem keys_subset_keys_set (o : JsObj α) (k : String) (v : α) :
    o.keys ⊆ (o.set k v).keys := by
  rw [keys_set]
  by_cases hm : k ∈ o.keys
  · simp [hm]
  · simp only [hm, if_false]
    exact List.subset_append_left _ _

theorem get_set_cases (o : JsObj α) (k k' : String) (v : α) (x : α)
    (h : (o.set k v).get k' = some x) : x = v ∨ o.get k' = some x := by
  by_cases hk : k' = k
  · subst hk
    rw [get_set_self] at h
    exact Or.inl (Option.some_injective _ h).symm
  · rw [get_set_ne _ _ _ _ hk] at h
    exact Or.inr h

end JsObj

/-- Log levels of `modules/log` (`log.debug`, `log.info`, `log.warn`,
`log.error`). -/
inductive LogLevel where
  | debug
  | info
  | warn
  | error
deriving DecidableEq, Repr

/-- One log call: level and (rendered) message. -/
structure LogEntry where
  level : LogLevel
  message : String
deriving DecidableEq, Repr

/-- Outcome of an awaited underlying client call: a fulfilled value, or a
rejection carrying `err.message`. -/
inductive JsResult (α : Type u) where
  | ok (val : α)
  | err (message : String)
deriving DecidableEq, Repr

/-- The two matrix-js-sdk client events `startClient` subscribes to:
`RoomState.members` (carrying `state.roomId` and the `state.members`
object, keyed by member account id) and `sync` (carrying the sync state
string). -/
inductive ClientEvent where
  | roomStateMembers (roomId : String) (members : JsObj Unit)
  | sync (state : String)

/-- The settlement state of the promise returned by `startClient`.
`resolveCount` counts effective settlements (a `resolve()` call on an
already-settled promise is a no-op); `rejected` records whether
`_reject` was ever invoked. -/
structure PromiseState where
  settled : Bool
  resolveCount : Nat
  rejected : Bool
deriving DecidableEq, Repr

/-- ECMAScript promise resolution: only the first call settles the
promise; later calls change nothing. -/
def PromiseState.resolve (p : PromiseState) : PromiseState :=
  if p.settled then p else { settled := true, resolveCount := p.resolveCount + 1, rejected := p.rejected }

/-- A fresh, pending promise. -/
def PromiseState.fresh : PromiseState := ⟨false, 0, false⟩

@[simp] theorem PromiseState.resolve_resolve (p : PromiseState) :
    p.resolve.resolve = p.resolve := by
  by_cases h : p.settled = true
  · simp [resolve, h]
  · simp only [Bool.not_eq_true] at h
    simp [resolve, h]

/-- The mutable state of the running client from `startClient` on: the
`this.matrixRoomMembers` cache and the returned promise. -/
structure StartClientState where
  matrixRoomMembers : JsObj (List String)
  promise : PromiseState

/-- The event callbacks registered by `startClient`
(`src/puppet.js:38-47`): a `RoomState.members` event replaces the
cached member list of its room with `Object.keys(state.members)`; a
`sync` event resolves the promise when the state is `"PREPARED"` and
does nothing otherwise. -/
def handleEvent (st : StartClientState) : ClientEvent → StartClientState
  | .roomStateMembers roomId members =>
      { st with matrixRoomMembers := st.matrixRoomMembers.set roomId members.keys }
  | .sync state =>
      if state = "PREPARED" then { st with promise := st.promise.resolve } else st

set_option linter.unusedVariables false in
/-- `startClient` run against a stream of events: line 37
(`this.matrixRoomMembers = {}`) unconditionally discards the previous
cache `prior`, so the run starts from the empty cache and a fresh
pending promise, then processes the events through the registered
callbacks. -/
def startClientRun (prior : JsObj (List String)) (events : List ClientEvent) :
    StartClientState :=
  events.foldl handleEvent { matrixRoomMembers := JsObj.empty, promise := PromiseState.fresh }

/-- `startClient` on a freshly constructed `Puppet` (the constructor
sets `this.matrixRoomMembers = {}`). -/
def startClient (events : List ClientEvent) : StartClientState :=
  startClientRun JsObj.empty events

/-- `getMatrixRoomMembers(roomId)`: `this.matrixRoomMembers[roomId] || []`
(src/puppet.js:57-59). An absent key reads as `undefined`, which is
falsy, so the result is `[]`; a present array is truthy (even when
empty) and is returned as stored. -/
def getMatrixRoomMembers (st : StartClientState) (roomId : String) : List String :=
  (st.matrixRoomMembers.get roomId).getD []

/-- The member-key list of the last `RoomState.members` event for
`roomId` in the stream, if any. -/
def lastMembersFor (roomId : String) : List ClientEvent → Option (List String)
  | [] => none
  | e :: rest =>
    match lastMembersFor roomId rest with
    | some ks => some ks
    | none =>
      match e with
      | .roomStateMembers r m => if r = roomId then some m.keys else none
      | .sync _ => none

theorem matrixRoomMembers_handleEvent_sync (st : StartClientState) (s : String) :
    (handleEvent st (.sync s)).matrixRoomMembers = st.matrixRoomMembers := by
  by_cases h : s = "PREPARED" <;> simp [handleEvent, h]

/-- The cached member list after a fold of events is the key list of the
last `RoomState.members` event for the room, or the prior cache entry
when the stream holds none. -/
theorem get_matrixRoomMembers_foldl (es : List ClientEvent) (st : StartClientState)
    (roomId : String) :
    (es.foldl handleEvent st).matrixRoomMembers.get roomId =
      match lastMembersFor roomId es with
      | some ks => some ks
      | none => st.matrixRoomMembers.get roomId := by
  induction es generalizing st with
  | nil => simp [lastMembersFor]
  | cons e rest ih =>
    rw [List.foldl_cons, ih]
    cases hrest : lastMembersFor roomId rest with
    | some ks => simp [lastMembersFor, hrest]
    | none =>
      cases e with
      | roomStateMembers r m =>
        by_cases hr : r = roomId
        · subst hr
          simp [lastMembersFor, hrest, handleEvent]
        · simp [lastMembersFor, hrest, handleEvent, hr,
            JsObj.get_set_ne _ _ _ _ (fun hc => hr hc.symm)]
      | sync s =>
        simp [lastMembersFor, hrest, matrixRoomMembers_handleEvent_sync]

theorem lastMembersFor_eq_none (roomId : String) (es : List ClientEvent)
    (h : ∀ m, ClientEvent.roomStateMembers roomId m ∉ es) :
    lastMembersFor roomId es = none := by
  induction es with
  | nil => rfl
  | cons e rest ih =>
    have hrest : lastMembersFor roomId rest = none :=
      ih fun m hm => h m (List.mem_cons_of_mem _ hm)
    cases e with
    | roomStateMembers r m =>
      have hr : ¬ r = roomId := by
        intro hc
        subst hc
        exact h m (List.mem_cons_self _ _)
      simp [lastMembersFor, hrest, hr]
    | sync s => simp [lastMembersFor, hrest]

theorem lastMembersFor_append (roomId : String) (as bs : List ClientEvent) :
    lastMembersFor roomId (as ++ bs) =
      match lastMembersFor roomId bs with
      | some ks => some ks
      | none => lastMembersFor roomId as := by
  induction as with
  | nil => cases h : lastMembersFor roomId bs <;> simp [lastMembersFor, h]
  | cons a as ih =>
    rw [List.cons_append]
    cases hbs : lastMembersFor roomId bs with
    | some ks => simp [lastMembersFor, ih, hbs]
    | none => simp [lastMembersFor, ih, hbs]

theorem lastMembersFor_cons_self (roomId : String) (m : JsObj Unit)
    (es : List ClientEvent) (h : lastMembersFor roomId es = none) :
    lastMembersFor roomId (ClientEvent.roomStateMembers roomId m :: es) = some m.keys := by
  simp [lastMembersFor, h]

instance {α : Type u} [DecidableEq α] : DecidableEq (JsObj α) := fun a b =>
  decidable_of_iff (a.entries = b.entries) (by cases a; cases b; simp)

instance : DecidableEq ClientEvent := fun a b =>
  match a, b with
  | .roomStateMembers r1 m1, .roomStateMembers r2 m2 =>
      decidable_of_iff (r1 = r2 ∧ m1 = m2) (by simp)
  | .roomStateMembers _ _, .sync _ => isFalse fun h => ClientEvent.noConfusion h
  | .sync _, .roomStateMembers _ _ => isFalse fun h => ClientEvent.noConfusion h
  | .sync s1, .sync s2 => decidable_of_iff (s1 = s2) (by simp)

/-- After folding events, the promise is the prior promise resolved once
iff a `sync` event with state `"PREPARED"` occurred, and unchanged
otherwise (resolution is idempotent, so any number of `"PREPARED"`
events settles exactly as one does). -/
theorem promise_foldl (es : List ClientEvent) (st : StartClientState) :
    (es.foldl handleEvent st).promise =
      if ClientEvent.sync "PREPARED" ∈ es then st.promise.resolve else st.promise := by
  induction es generalizing st with
  | nil => simp
  | cons e rest ih =>
    rw [List.foldl_cons, ih]
    cases e with
    | roomStateMembers r m =>
      have hne : ClientEvent.sync "PREPARED" ≠ ClientEvent.roomStateMembers r m := by
        intro hc
        exact ClientEvent.noConfusion hc
      by_cases hmem : ClientEvent.sync "PREPARED" ∈ rest <;>
        simp [handleEvent, hmem, List.mem_cons, hne]
    | sync s =>
      by_cases hs : s = "PREPARED"
      · subst hs
        by_cases hmem : ClientEvent.sync "PREPARED" ∈ rest <;>
          simp [handleEvent, hmem, List.mem_cons]
      · have hne : ClientEvent.sync "PREPARED" ≠ ClientEvent.sync s := by
          intro hc
          cases hc
          exact hs rfl
        by_cases hmem : ClientEvent.sync "PREPARED" ∈ rest <;>
          simp [handleEvent, hs, hmem, List.mem_cons, hne]

theorem keys_subset_foldl (es : List ClientEvent) (st : StartClientState) :
    st.matrixRoomMembers.keys ⊆ (es.foldl handleEvent st).matrixRoomMembers.keys := by
  induction es generalizing st with
  | nil => exact fun a ha => ha
  | cons e rest ih =>
    rw [List.foldl_cons]
    refine List.Subset.trans ?_ (ih (handleEvent st e))
    cases e with
    | roomStateMembers r m => exact JsObj.keys_subset_keys_set _ _ _
    | sync s =>
      rw [matrixRoomMembers_handleEvent_sync]
      exact fun a ha => ha

theorem nodup_values_foldl (es : List ClientEvent) (st : StartClientState)
    (hst : ∀ r ks, st.matrixRoomMembers.get r = some ks → ks.Nodup) :
    ∀ r ks, (es.foldl handleEvent st).matrixRoomMembers.get r = some ks → ks.Nodup := by
  induction es generalizing st with
  | nil => exact hst
  | cons e rest ih =>
    rw [List.foldl_cons]
    refine ih (handleEvent st e) ?_
    cases e with
    | roomStateMembers r m =>
      intro r' ks hget
      rcases JsObj.get_set_cases _ _ _ _ _ hget with hv | hv
      · subst hv
        exact m.nodupKeys
      · exact hst r' ks hv
    | sync s =>
      rw [matrixRoomMembers_handleEvent_sync]
      exact hst

/-- Result and logs of one `joinRoom` call. The `result` is `Except`:
`.error` would model an exception escaping to the caller, `.ok v` a
normal return of `v` (`none` models `undefined`, `some true` the `true`
return). -/
structure JoinRoomOutcome where
  result : Except String (Option Bool)
  logs : List LogEntry
deriving Repr

/-- `joinRoom(matrixRoomId)` (src/puppet.js:112-124), parameterised by
the outcome `clientJoin` of the awaited `this.client.joinRoom` call: on
success it returns `undefined`; on rejection with message exactly
`"No known servers"` it warns and returns `true`; on any other
rejection it warns and falls off the catch block, returning
`undefined`. The catch block never rethrows. -/
def joinRoom (clientJoin : JsResult Unit) : JoinRoomOutcome :=
  match clientJoin with
  | .ok _ => { result := .ok none, logs := [] }
  | .err msg =>
    if msg = "No known servers" then
      { result := .ok (some true),
        logs := [⟨.warn, "we cannot use this room anymore because you cannot currently rejoin an empty room (synapse limitation? riot throws this error too). we need to de-alias it now so a new room gets created that we can actually use."⟩] }
    else
      { result := .ok none,
        logs := [⟨.warn, "ignoring error from puppet join room: " ++ msg⟩] }

/-- `getRoom(roomAlias)` (src/puppet.js:82-91), parameterised by the
outcome of the awaited `this.client.getRoomIdForAlias` call: success
destructures `room_id` and returns it after a debug log; any rejection
is caught, logged at debug level, and the function falls off the catch
block returning `undefined` (`.ok none`) — the error is never
rethrown. -/
def getRoom (getRoomIdForAlias : String → JsResult String) (roomAlias : String) :
    Except String (Option String) × List LogEntry :=
  match getRoomIdForAlias roomAlias with
  | .ok roomId =>
      (.ok (some roomId), [⟨.debug, "found matrix room via alias. room_id: " ++ roomId⟩])
  | .err _ =>
      (.ok none, [⟨.debug, "the room doesn\x27t exist. we need to create it for the first time"⟩])

/-- `Promise.all` over a list of settled invite outcomes: fulfilled with
the list of values when all fulfil, rejected (with the message of the
first rejecting entry in list order) when any rejects. -/
def promiseAll (rs : List (JsResult Unit)) : JsResult (List Unit) :=
  match rs with
  | [] => .ok []
  | .ok v :: rest =>
    match promiseAll rest with
    | .ok vs => .ok (v :: vs)
    | .err m => .err m
  | .err m :: _ => .err m

/-- Result, issued network calls, and logs of one `invite` call. -/
structure InviteOutcome where
  result : Except String (Option (List Unit))
  calls : List String
  logs : List LogEntry
deriving Repr

/-- `invite(matrixRoomId, invitedUsers)` (src/puppet.js:133-142),
parameterised by the per-user outcome `clientInvite` of
`this.client.invite`. `invitedUsers = none` models an absent
(`undefined`/`null`) list: `!invitedUsers` is true, so the method logs
at debug level and returns `undefined` without touching the network.
A present array — even the empty one, which is truthy in JS — takes the
other branch: it is logged at info level (`'Users to invite'`), one
`client.invite` is issued per user (`calls`), each fulfilled invite
logs at debug level, and the returned value is the `Promise.all`
aggregate. -/
def invite (clientInvite : String → JsResult Unit) (matrixRoomId : String)
    (invitedUsers : Option (List String)) : InviteOutcome :=
  match invitedUsers with
  | none =>
    { result := .ok none, calls := [],
      logs := [⟨.debug, "All members in skype skypeRoom are already joined to Matrix room: " ++ matrixRoomId⟩] }
  | some users =>
    { result :=
        match promiseAll (users.map clientInvite) with
        | .ok vs => .ok (some vs)
        | .err m => .error m,
      calls := users,
      logs := ⟨.info, "Users to invite"⟩ ::
        users.filterMap fun user =>
          match clientInvite user with
          | .ok _ => some ⟨.debug, "New user " ++ user ++ " invited to room " ++ matrixRoomId⟩
          | .err _ => none }

/-- A top-level value of the JSON configuration object: the `puppet`
record `{id, localpart, token}`, or any other configuration value,
kept opaque. -/
inductive ConfigValue where
  | puppetRec (id localpart token : String)
  | plain (v : String)
deriving DecidableEq, Repr

/-- Result of `associate` and the sequence of config-store writes it
performed. -/
structure AssociateOutcome where
  result : Except String Unit
  writes : List (JsObj ConfigValue)

/-- `associate()` (src/puppet.js:147-173), parameterised by the user
input (`localpart`, `password`, read from readline) and the outcome of
`loginWithPassword`. The user id is `` `@${localpart}:${domain}` ``.
On login success the file write receives
`JSON.stringify({...this.config, puppet: {id, localpart, token}})`:
the object spread copies every entry of the held config in order, then
the `puppet` property is assigned (replaced in place when present,
appended otherwise) — exactly `JsObj.set`. On login rejection the
catch block logs and rethrows, and no write happens. -/
def associate (config : JsObj ConfigValue) (domain localpart password : String)
    (loginWithPassword : String → String → JsResult String) : AssociateOutcome :=
  let id := "@" ++ localpart ++ ":" ++ domain
  match loginWithPassword id password with
  | .ok accessToken =>
      { result := .ok (),
        writes := [config.set "puppet" (.puppetRec id localpart accessToken)] }
  | .err m => { result := .error m, writes := [] }

theorem promiseAll_isErr_iff (rs : List (JsResult Unit)) :
    (∃ m, promiseAll rs = .err m) ↔ ∃ r ∈ rs, ∃ m, r = .err m := by
  induction rs with
  | nil => simp [promiseAll]
  | cons r rest ih =>
    cases r with
    | ok v =>
      cases hrest : promiseAll rest with
      | ok vs =>
        have hnone : ¬ ∃ m, promiseAll rest = .err m := by simp [hrest]
        simp only [promiseAll, hrest]
        constructor
        · rintro ⟨m, hm⟩
          exact absurd hm (by simp)
        · rintro ⟨x, hx, m, hm⟩
          rcases List.mem_cons.1 hx with hx | hx
          · subst hx
            exact absurd hm (by simp)
          · exact absurd (ih.2 ⟨x, hx, m, hm⟩) hnone
      | err m0 =>
        have hsome : ∃ m, promiseAll rest = .err m := ⟨m0, hrest⟩
        simp only [promiseAll, hrest]
        constructor
        · intro _
          rcases ih.1 hsome with ⟨x, hx, m, hm⟩
          exact ⟨x, List.mem_cons_of_mem _ hx, m, hm⟩
        · intro _
          exact ⟨m0, rfl⟩
    | err m0 =>
      simp only [promiseAll]
      constructor
      · intro _
        exact ⟨.err m0, List.mem_cons_self _ _, m0, rfl⟩
      · intro _
        exact ⟨m0, rfl⟩

/-- A concrete members object `{a, b, c}` for witnesses. -/
def demoMembers3 : JsObj Unit :=
  ⟨[("@a:server", ()), ("@b:server", ()), ("@c:server", ())], by decide⟩

/-- A concrete members object `{a, b}` for witnesses. -/
def demoMembers2 : JsObj Unit :=
  ⟨[("@a:server", ()), ("@b:server", ())], by decide⟩

/-- A concrete non-empty member cache for witnesses. -/
def demoPrior : JsObj (List String) :=
  ⟨[("!old:server", ["@x:server"])], by decide⟩

/-- A concrete per-user invite outcome for witnesses: the second user's
invite rejects. -/
def demoInviteClient (user : String) : JsResult Unit :=
  if user = "@u2:server" then .err "boom" else .ok ()

/-- A concrete held configuration for witnesses. -/
def demoConfig : JsObj ConfigValue :=
  ⟨[("bridge", .plain "bridge-section"), ("puppet", .puppetRec "@old:server" "old" "oldtoken")],
    by decide⟩

/-- C1: a `RoomState.members` event for room `R` fully replaces the
cached member list for `R`: after an event with members `m1` followed
(with arbitrary interleaved events) by one with members `m2`, and no
further `RoomState.members` event for `R`, `getMatrixRoomMembers R`
returns exactly the member keys of the latest event `m2` — no union, no
incremental add/remove, independent of `m1`. -/
theorem members_event_full_replace (es1 es2 es3 : List ClientEvent) (R : String)
    (m1 m2 : JsObj Unit)
    (h : ∀ m, ClientEvent.roomStateMembers R m ∉ es3) :
    getMatrixRoomMembers
      (startClient (es1 ++ ClientEvent.roomStateMembers R m1 ::
        (es2 ++ ClientEvent.roomStateMembers R m2 :: es3))) R = m2.keys := by
  have h3 : lastMembersFor R es3 = none := lastMembersFor_eq_none R es3 h
  have h2 : lastMembersFor R (ClientEvent.roomStateMembers R m2 :: es3) = some m2.keys :=
    lastMembersFor_cons_self R m2 es3 h3
  have hm : lastMembersFor R (es2 ++ ClientEvent.roomStateMembers R m2 :: es3) = some m2.keys := by
    rw [lastMembersFor_append, h2]
  have hin : lastMembersFor R (ClientEvent.roomStateMembers R m1 ::
      (es2 ++ ClientEvent.roomStateMembers R m2 :: es3)) = some m2.keys := by
    simp [lastMembersFor, hm]
  have hall : lastMembersFor R (es1 ++ ClientEvent.roomStateMembers R m1 ::
      (es2 ++ ClientEvent.roomStateMembers R m2 :: es3)) = some m2.keys := by
    rw [lastMembersFor_append, hin]
  unfold getMatrixRoomMembers startClient startClientRun
  rw [get_matrixRoomMembers_foldl, hall]
  rfl

/-- Witness for C1 at a concrete stream: `{a,b,c}` for the room then
`{a,b}`; the query returns exactly `[a, b]`. -/
theorem members_event_full_replace_witness :
    getMatrixRoomMembers (startClient [ClientEvent.roomStateMembers "!r:server" demoMembers3,
      ClientEvent.roomStateMembers "!r:server" demoMembers2]) "!r:server"
      = ["@a:server", "@b:server"] := by
  have h := members_event_full_replace [] [] [] "!r:server" demoMembers3 demoMembers2
    (by intro m hm; simp at hm)
  simpa [demoMembers2, JsObj.keys] using h

/-- C6: the promise returned by `startClient` is never rejected, settles
at most once, settles exactly when a `sync` event with state
`"PREPARED"` occurs, and when settled its effective resolution count is
exactly one — later transitions (including a second `"PREPARED"`)
neither re-resolve nor reject it. -/
theorem startClient_promise_resolves_once (events : List ClientEvent) :
    (startClient events).promise.rejected = false ∧
    (startClient events).promise.resolveCount ≤ 1 ∧
    ((startClient events).promise.settled = true ↔ ClientEvent.sync "PREPARED" ∈ events) ∧
    ((startClient events).promise.settled = true →
      (startClient events).promise.resolveCount = 1) := by
  unfold startClient startClientRun
  rw [promise_foldl]
  by_cases h : ClientEvent.sync "PREPARED" ∈ events <;>
    simp [h, PromiseState.resolve, PromiseState.fresh]

/-- Witness for C6: a stream with two `"PREPARED"` transitions still
yields exactly one effective resolution and no rejection. -/
theorem startClient_promise_resolves_once_witness :
    (startClient [ClientEvent.sync "SYNCING", ClientEvent.sync "PREPARED",
      ClientEvent.sync "PREPARED"]).promise.resolveCount = 1 ∧
    (startClient [ClientEvent.sync "SYNCING", ClientEvent.sync "PREPARED",
      ClientEvent.sync "PREPARED"]).promise.rejected = false := by
  have h := startClient_promise_resolves_once [ClientEvent.sync "SYNCING",
    ClientEvent.sync "PREPARED", ClientEvent.sync "PREPARED"]
  exact ⟨h.2.2.2 (h.2.2.1.mpr (by simp)), h.1⟩

/-- C7: a room identifier that appeared in no `RoomState.members` event
since the start reads as the empty list — `getMatrixRoomMembers` is a
total function, so an unknown room is never an error. -/
theorem unknown_room_members_empty (events : List ClientEvent) (roomId : String)
    (h : ∀ m, ClientEvent.roomStateMembers roomId m ∉ events) :
    getMatrixRoomMembers (startClient events) roomId = [] := by
  unfold getMatrixRoomMembers startClient startClientRun
  rw [get_matrixRoomMembers_foldl, lastMembersFor_eq_none roomId events h]
  rfl

/-- Witness for C7: a stream mentioning only another room leaves the
queried room empty. -/
theorem unknown_room_members_empty_witness :
    getMatrixRoomMembers (startClient [ClientEvent.sync "PREPARED",
      ClientEvent.roomStateMembers "!other:server" demoMembers3]) "!unknown:server" = [] :=
  unknown_room_members_empty _ _ (by intro m hm; simp [demoMembers3] at hm)

/-- C10: a cached member list is always `Object.keys` of some members
object, whose keys are pairwise distinct, so `getMatrixRoomMembers`
never returns duplicate account identifiers. -/
theorem members_list_nodup (events : List ClientEvent) (roomId : String) :
    (getMatrixRoomMembers (startClient events) roomId).Nodup := by
  unfold getMatrixRoomMembers startClient startClientRun
  have hinv := nodup_values_foldl events
    { matrixRoomMembers := JsObj.empty, promise := PromiseState.fresh }
    (by intro r ks hk; simp [JsObj.get_empty] at hk)
  cases hget : (events.foldl handleEvent
      { matrixRoomMembers := JsObj.empty, promise := PromiseState.fresh }).matrixRoomMembers.get roomId with
  | none => simp [hget]
  | some ks => exact hinv roomId ks hget

/-- C2: `joinRoom` has a three-way outcome: a successful underlying join
returns `undefined`; a failure with message exactly `"No known
servers"` returns `true`; any other failure is logged and returns
`undefined`. In every case the result is a normal return (`.ok`):
nothing is ever raised to the caller. -/
theorem joinRoom_three_way :
    (joinRoom (.ok ())).result = .ok none ∧
    (joinRoom (.ok ())).logs = [] ∧
    (joinRoom (.err "No known servers")).result = .ok (some true) ∧
    (∀ msg, msg ≠ "No known servers" →
      (joinRoom (.err msg)).result = .ok none ∧
      (joinRoom (.err msg)).logs =
        [⟨.warn, "ignoring error from puppet join room: " ++ msg⟩]) ∧
    (∀ r, ∃ v, (joinRoom r).result = .ok v) := by
  refine ⟨rfl, rfl, by simp [joinRoom], ?_, ?_⟩
  · intro msg hmsg
    exact ⟨by simp [joinRoom, hmsg], by simp [joinRoom, hmsg]⟩
  · intro r
    cases r with
    | ok v => exact ⟨none, rfl⟩
    | err msg =>
      by_cases hmsg : msg = "No known servers"
      · exact ⟨some true, by simp [joinRoom, hmsg]⟩
      · exact ⟨none, by simp [joinRoom, hmsg]⟩

/-- Witness for C2 at a concrete unrelated error message. -/
theorem joinRoom_three_way_witness :
    (joinRoom (.err "M_FORBIDDEN")).result = .ok none ∧
    (joinRoom (.err "M_FORBIDDEN")).logs =
      [⟨.warn, "ignoring error from puppet join room: " ++ "M_FORBIDDEN"⟩] :=
  joinRoom_three_way.2.2.2.1 "M_FORBIDDEN" (by decide)

set_option linter.unusedVariables false in
/-- C4: for a present user list, `invite` issues exactly one underlying
invite per listed user, and the `Promise.all` aggregate fails exactly
when at least one individual invite fails — a single failing invite
fails the whole operation even if every other one succeeded. -/
theorem invite_all_or_nothing (clientInvite : String → JsResult Unit)
    (matrixRoomId : String) (users : List String) (h : users ≠ []) :
    (invite clientInvite matrixRoomId (some users)).calls = users ∧
    ((∃ m, (invite clientInvite matrixRoomId (some users)).result = .error m) ↔
      ∃ u ∈ users, ∃ m, clientInvite u = .err m) := by
  refine ⟨rfl, ?_⟩
  have hchar : (∃ m, (invite clientInvite matrixRoomId (some users)).result = .error m) ↔
      ∃ m, promiseAll (users.map clientInvite) = .err m := by
    simp only [invite]
    cases hp : promiseAll (users.map clientInvite) with
    | ok vs => simp
    | err m => simp
  rw [hchar, promiseAll_isErr_iff]
  constructor
  · rintro ⟨r, hr, m, hm⟩
    rcases List.mem_map.1 hr with ⟨u, hu, hru⟩
    exact ⟨u, hu, m, hru ▸ hm⟩
  · rintro ⟨u, hu, m, hm⟩
    exact ⟨clientInvite u, List.mem_map_of_mem _ hu, m, hm⟩

/-- Witness for C4: the second of two users fails, and the aggregate
fails although the first invite succeeded. -/
theorem invite_all_or_nothing_witness :
    (invite demoInviteClient "!r:server" (some ["@u1:server", "@u2:server"])).calls
      = ["@u1:server", "@u2:server"] ∧
    (∃ m, (invite demoInviteClient "!r:server"
      (some ["@u1:server", "@u2:server"])).result = .error m) := by
  have h := invite_all_or_nothing demoInviteClient "!r:server" ["@u1:server", "@u2:server"]
    (by decide)
  exact ⟨h.1, h.2.mpr ⟨"@u2:server", by simp, "boom", by simp [demoInviteClient]⟩⟩

/-- Counterexample for C5 as stated: `invite(room, [])` indeed performs
no underlying invite call and resolves, but it is NOT logged at debug
level — the empty array is truthy in JS, so it takes the non-empty
branch and logs `'Users to invite'` at info level, with no debug entry
at all. -/
theorem invite_empty_list_counterexample :
    (invite (fun _ => JsResult.ok ()) "!r:server" (some [])).calls = [] ∧
    (invite (fun _ => JsResult.ok ()) "!r:server" (some [])).logs
      = [⟨.info, "Users to invite"⟩] ∧
    ¬ ∃ e ∈ (invite (fun _ => JsResult.ok ()) "!r:server" (some [])).logs,
        e.level = LogLevel.debug := by
  refine ⟨rfl, rfl, ?_⟩
  rintro ⟨e, he, hl⟩
  simp only [invite, List.filterMap_nil, List.mem_singleton] at he
  subst he
  exact absurd hl (by decide)

/-- C5 as amended: an absent (`undefined`) user list is a debug-logged
no-op with no network call; an empty (`[]`) user list likewise performs
no network call and resolves immediately, but through the non-empty
branch, logging the user list at info level rather than debug. -/
theorem invite_absent_or_empty_noop (clientInvite : String → JsResult Unit)
    (matrixRoomId : String) :
    (invite clientInvite matrixRoomId none).calls = [] ∧
    (invite clientInvite matrixRoomId none).result = .ok none ∧
    (invite clientInvite matrixRoomId none).logs =
      [⟨.debug, "All members in skype skypeRoom are already joined to Matrix room: " ++ matrixRoomId⟩] ∧
    (invite clientInvite matrixRoomId (some [])).calls = [] ∧
    (invite clientInvite matrixRoomId (some [])).result = .ok (some []) ∧
    (invite clientInvite matrixRoomId (some [])).logs = [⟨.info, "Users to invite"⟩] := by
  exact ⟨rfl, rfl, rfl, rfl, rfl, rfl⟩

/-- C8: every failure of the underlying alias lookup, whatever its
message, is swallowed: `getRoom` returns the same absent result as
"not found" (`undefined`), logs at debug level only, and never lets an
error escape. -/
theorem getRoom_swallows_failures (lookup : String → JsResult String) (roomAlias : String) :
    (∀ m, lookup roomAlias = .err m →
      (getRoom lookup roomAlias).1 = .ok none ∧
      (getRoom lookup roomAlias).2 =
        [⟨.debug, "the room doesn\x27t exist. we need to create it for the first time"⟩]) ∧
    (∀ e ∈ (getRoom lookup roomAlias).2, e.level = LogLevel.debug) ∧
    (∃ v, (getRoom lookup roomAlias).1 = .ok v) := by
  cases hl : lookup roomAlias with
  | ok roomId =>
    refine ⟨?_, ?_, some roomId, by simp [getRoom, hl]⟩
    · intro m hm
      exact absurd hm (by simp)
    · intro e he
      simp only [getRoom, hl, List.mem_singleton] at he
      subst he
      rfl
  | err m0 =>
    refine ⟨?_, ?_, none, by simp [getRoom, hl]⟩
    · intro m _
      exact ⟨by simp [getRoom, hl], by simp [getRoom, hl]⟩
    · intro e he
      simp only [getRoom, hl, List.mem_singleton] at he
      subst he
      rfl

/-- Witness for C8 at a concrete failing lookup. -/
theorem getRoom_swallows_failures_witness :
    (getRoom (fun _ => JsResult.err "M_NOT_FOUND") "#alias:server").1 = .ok none :=
  ((getRoom_swallows_failures (fun _ => JsResult.err "M_NOT_FOUND") "#alias:server").1
    "M_NOT_FOUND" rfl).1

/-- C9: every invocation of `startClient` resets the member cache to the
empty object (the run is independent of any prior cache, and the cache
right after the reset is empty), and within one run the key set only
grows: processing further events never removes a room identifier key. -/
theorem cache_reset_and_monotone_keys :
    (∀ prior, (startClientRun prior []).matrixRoomMembers = JsObj.empty) ∧
    (∀ prior1 prior2 events, startClientRun prior1 events = startClientRun prior2 events) ∧
    (∀ prior es es', (startClientRun prior es).matrixRoomMembers.keys ⊆
      (startClientRun prior (es ++ es')).matrixRoomMembers.keys) := by
  refine ⟨fun _ => rfl, fun _ _ _ => rfl, fun prior es es' => ?_⟩
  unfold startClientRun
  rw [List.foldl_append]
  exact keys_subset_foldl es' _

/-- Witness for C9: a run from a non-empty prior cache starts empty, and
a key added by an event survives the rest of the stream. -/
theorem cache_reset_and_monotone_keys_witness :
    (startClientRun demoPrior []).matrixRoomMembers = JsObj.empty ∧
    "!r:server" ∈ ((startClientRun demoPrior
      ([ClientEvent.roomStateMembers "!r:server" demoMembers2] ++
        [ClientEvent.sync "PREPARED",
          ClientEvent.roomStateMembers "!other:server" demoMembers3])).matrixRoomMembers.keys) := by
  refine ⟨cache_reset_and_monotone_keys.1 demoPrior, ?_⟩
  apply cache_reset_and_monotone_keys.2.2 demoPrior
    [ClientEvent.roomStateMembers "!r:server" demoMembers2]
    [ClientEvent.sync "PREPARED", ClientEvent.roomStateMembers "!other:server" demoMembers3]
  decide

/-- C3: on login success, `associate` performs exactly one config-store
write, whose content is the held configuration with the `puppet` key
added or replaced by `{id, localpart, token}` and every other
top-level key (and the overall key set) preserved; on login failure it
writes nothing and re-raises the error. -/
theorem associate_config_write (config : JsObj ConfigValue)
    (domain localpart password : String) (login : String → String → JsResult String) :
    (∀ tok, login ("@" ++ localpart ++ ":" ++ domain) password = .ok tok →
      (associate config domain localpart password login).result = .ok () ∧
      (associate config domain localpart password login).writes =
        [config.set "puppet"
          (.puppetRec ("@" ++ localpart ++ ":" ++ domain) localpart tok)] ∧
      ∀ cfg ∈ (associate config domain localpart password login).writes,
        cfg.get "puppet" =
          some (.puppetRec ("@" ++ localpart ++ ":" ++ domain) localpart tok) ∧
        (∀ k, k ≠ "puppet" → cfg.get k = config.get k) ∧
        cfg.keys =
          (if "puppet" ∈ config.keys then config.keys else config.keys ++ ["puppet"])) ∧
    (∀ m, login ("@" ++ localpart ++ ":" ++ domain) password = .err m →
      (associate config domain localpart password login).writes = [] ∧
      (associate config domain localpart password login).result = .error m) := by
  constructor
  · intro tok htok
    refine ⟨by simp [associate, htok], by simp [associate, htok], ?_⟩
    intro cfg hcfg
    simp only [associate, htok, List.mem_singleton] at hcfg
    subst hcfg
    exact ⟨JsObj.get_set_self _ _ _,
      fun k hk => JsObj.get_set_ne _ _ _ _ hk,
      JsObj.keys_set _ _ _⟩
  · intro m hm
    exact ⟨by simp [associate, hm], by simp [associate, hm]⟩

/-- Witness for C3: a successful login writes the spread-plus-puppet
object once and preserves the `bridge` key; a failed login writes
nothing. -/
theorem associate_config_write_witness :
    (associate demoConfig "server" "alice" "pw" (fun _ _ => JsResult.ok "newtoken")).result
      = .ok () ∧
    (associate demoConfig "server" "alice" "pw" (fun _ _ => JsResult.ok "newtoken")).writes
      = [demoConfig.set "puppet" (ConfigValue.puppetRec "@alice:server" "alice" "newtoken")] ∧
    (∀ cfg ∈ (associate demoConfig "server" "alice" "pw"
        (fun _ _ => JsResult.ok "newtoken")).writes,
      cfg.get "bridge" = demoConfig.get "bridge") ∧
    (associate demoConfig "server" "alice" "pw" (fun _ _ => JsResult.err "M_FORBIDDEN")).writes
      = [] := by
  have hok := (associate_config_write demoConfig "server" "alice" "pw"
    (fun _ _ => JsResult.ok "newtoken")).1 "newtoken" rfl
  have herr := (associate_config_write demoConfig "server" "alice" "pw"
    (fun _ _ => JsResult.err "M_FORBIDDEN")).2 "M_FORBIDDEN" rfl
  exact ⟨hok.1, hok.2.1,
    fun cfg hcfg => ((hok.2.2 cfg hcfg).2.1 "bridge" (by decide)), herr.1⟩

end MatrixSkypeBridge
